import Mathlib

/-!
Shallow embedding of the `uniprot-fasta-header` Rust crate (nom-based parser
for UniProtKB fasta header lines) and proofs about it.

Byte buffers are modelled as `List Nat` (each element an octet value).
The nom combinators used by the crate are all from `bytes::complete`, so a
sub-parser either succeeds, or fails with the classic tuple error
`(remaining input, ErrorKind)`; the `unreachable!()` arms in the source are
modelled by an explicit `panicked` outcome.  `String::from_utf8_lossy` /
`String::from_utf8(..).unwrap()` stringification is modelled at the byte
level (record fields keep the raw bytes; `.trim()` is modelled by an
ASCII-whitespace byte trim, exactly where the source applies it).
-/

namespace Uniprot

/-- Nom `ErrorKind` values producible by the sub-parsers of this crate
(`error.rs` turns the kind into its description string; we keep the enum). -/
inductive NomKind where
  | Tag
  | TakeWhile1
  | TakeWhileMN
  | TakeUntil
  | RegexpCapture
  | Eof
  deriving DecidableEq, Repr

/-- Result of a nom sub-parser on a byte buffer: success with the rest and a
value, a classic error `(remaining input, kind)`, nom's `Incomplete` (never
produced by the `complete` combinators this crate uses, but part of the
interface matched by `uniprotkb`), or a Rust panic (`unreachable!()`). -/
inductive PRes (α : Type) where
  | ok (rest : List Nat) (val : α)
  | err (rest : List Nat) (kind : NomKind)
  | incomplete
  | panicked
  deriving DecidableEq

/-- Truth of a parser result being a classic error. -/
def PRes.isErr {α : Type} : PRes α → Bool
  | .err _ _ => true
  | _ => false

/-- Sequencing of sub-parsers: Rust's `let (input, x) = p(input)?`. -/
def pbind {α β : Type} (r : PRes α) (f : List Nat → α → PRes β) : PRes β :=
  match r with
  | .ok rest v => f rest v
  | .err rest kind => .err rest kind
  | .incomplete => .incomplete
  | .panicked => .panicked

/-- ASCII bytes of a string literal. -/
def bytes (s : String) : List Nat := s.toList.map Char.toNat

/-- nom's `is_digit` on a byte. -/
def is_digit (c : Nat) : Bool := 48 ≤ c && c ≤ 57

/-- nom's `is_alphanumeric` on a byte. -/
def is_alphanumeric (c : Nat) : Bool :=
  (65 ≤ c && c ≤ 90) || (97 ≤ c && c ≤ 122) || (48 ≤ c && c ≤ 57)

/-- Whether the first list is a prefix of the second (recursion on the
pattern, so it evaluates as far as the pattern's length requires). -/
def isPrefixOfB : List Nat → List Nat → Bool
  | [], _ => true
  | a :: as, l =>
    match l with
    | [] => false
    | b :: bs => a == b && isPrefixOfB as bs

/-- nom `bytes::complete::tag`: consume the exact literal prefix, else fail
with kind `Tag` on the untouched input. -/
def tagP (t : List Nat) (input : List Nat) : PRes (List Nat) :=
  if isPrefixOfB t input then .ok (input.drop t.length) t
  else .err input .Tag

/-- nom `bytes::complete::take_while1 p`: the longest (nonempty) prefix whose
bytes satisfy `p`; fails with `TakeWhile1` when the first byte does not. -/
def takeWhile1P (p : Nat → Bool) (input : List Nat) : PRes (List Nat) :=
  match input.takeWhile p with
  | [] => .err input .TakeWhile1
  | pre => .ok (input.dropWhile p) pre

/-- nom `bytes::complete::take_while_m_n m n p`: with `idx` the length of the
longest prefix satisfying `p`, fail with `TakeWhileMN` when `idx < m`,
otherwise consume `min idx n` bytes. -/
def takeWhileMN (m n : Nat) (p : Nat → Bool) (input : List Nat) : PRes (List Nat) :=
  if (input.takeWhile p).length < m then .err input .TakeWhileMN
  else .ok (input.drop (min (input.takeWhile p).length n))
         (input.take (min (input.takeWhile p).length n))

/-- Index of the first occurrence of `pat` as a sub-list (contiguous), if any. -/
def findSub (pat : List Nat) : List Nat → Option Nat
  | [] => if pat.isEmpty then some 0 else none
  | c :: t =>
    if isPrefixOfB pat (c :: t) then some 0
    else (findSub pat t).map (fun i => i + 1)

/-- nom `bytes::complete::take_until pat`: everything strictly before the
first occurrence of `pat`; fails with `TakeUntil` if `pat` never occurs. -/
def take_until (pat : List Nat) (input : List Nat) : PRes (List Nat) :=
  match findSub pat input with
  | some i => .ok (input.drop i) (input.take i)
  | none => .err input .TakeUntil

/-- nom `bytes::complete::take n`: exactly `n` bytes, else kind `Eof`. -/
def takeN (n : Nat) (input : List Nat) : PRes (List Nat) :=
  if n ≤ input.length then .ok (input.drop n) (input.take n)
  else .err input .Eof

/-- UniProtKB database of origin (`lib.rs`). -/
inductive Database where
  | SwissProt
  | TrEMBL
  deriving DecidableEq, Repr

/-- Protein existence levels 1..5 (`lib.rs`). -/
inductive ProteinExistence where
  | ExperimentalEvidenceProtein
  | ExperimentalEvidenceTranscript
  | InferredHomology
  | Predicted
  | Uncertain
  deriving DecidableEq, Repr

/-- `parser::pipe`. -/
def pipe (input : List Nat) : PRes (List Nat) := tagP (bytes "|") input

/-- `parser::chevron`. -/
def chevron (input : List Nat) : PRes (List Nat) := tagP (bytes ">") input

/-- `parser::space`: one or more space or tab bytes. -/
def space (input : List Nat) : PRes (List Nat) :=
  takeWhile1P (fun c => c == 32 || c == 9) input

/-- `parser::db`: `alt((tag("sp"), tag("tr")))` mapped onto `Database`; on
failure of both tags the tuple-error `append` keeps the last tag error. -/
def db (input : List Nat) : PRes Database :=
  match tagP (bytes "sp") input with
  | .ok rest _ => .ok rest Database.SwissProt
  | _ =>
    match tagP (bytes "tr") input with
    | .ok rest _ => .ok rest Database.TrEMBL
    | .err rest kind => .err rest kind
    | .incomplete => .incomplete
    | .panicked => .panicked

/-- Byte class `[OPQ]` of the accession regular expression. -/
def classOPQ (c : Nat) : Bool := c == 79 || c == 80 || c == 81

/-- Byte class `[A-NR-Z]` of the accession regular expression. -/
def classANRZ (c : Nat) : Bool := (65 ≤ c && c ≤ 78) || (82 ≤ c && c ≤ 90)

/-- Byte class `[A-Z]`. -/
def classUpper (c : Nat) : Bool := 65 ≤ c && c ≤ 90

/-- Byte class `[A-Z0-9]`. -/
def classUpperDigit (c : Nat) : Bool := classUpper c || is_digit c

/-- The four byte classes of one `[A-Z][A-Z0-9]{2}[0-9]` group. -/
def grp4 (a b c d : Nat) : Bool :=
  classUpper a && classUpperDigit b && classUpperDigit c && is_digit d

/-- Whether a `[A-Z][A-Z0-9]{2}[0-9]` group matches at the head of a buffer. -/
def grpAt : List Nat → Bool
  | a :: b :: c :: d :: _ => grp4 a b c d
  | _ => false

/-- Length of a match of the first regex alternative
`[OPQ][0-9][A-Z0-9]{3}[0-9]` at the head of the buffer, if any. -/
def acc1Len : List Nat → Option Nat
  | c0 :: c1 :: c2 :: c3 :: c4 :: c5 :: _ =>
    if classOPQ c0 && is_digit c1 && classUpperDigit c2 && classUpperDigit c3
        && classUpperDigit c4 && is_digit c5 then some 6 else none
  | _ => none

/-- Length of a match of the second regex alternative
`[A-NR-Z][0-9]([A-Z][A-Z0-9]{2}[0-9]){1,2}` at the head of the buffer; the
greedy `{1,2}` prefers two groups (length 10) over one (length 6). -/
def acc2Len : List Nat → Option Nat
  | c0 :: c1 :: rest =>
    if classANRZ c0 && is_digit c1 then
      if grpAt rest && grpAt (rest.drop 4) then some 10
      else if grpAt rest then some 6
      else none
    else none
  | _ => none

/-- Length of the regex match at the head of the buffer under the regex
crate's first-alternative preference, if any. -/
def accMatchAt (l : List Nat) : Option Nat :=
  match acc1Len l with
  | some n => some n
  | none => acc2Len l

/-- Leftmost match `(start, length)` of the accession regular expression
anywhere in the buffer (the regex crate's leftmost-first search). -/
def findAcc : List Nat → Option (Nat × Nat)
  | [] => none
  | c :: t =>
    match accMatchAt (c :: t) with
    | some n => some (0, n)
    | none => (findAcc t).map (fun p => (p.1 + 1, p.2))

/-- `parser::unique_id`: regex search for the accession pattern; on a match the
whole matched slice is returned and the cursor advances past its end; with no
match anywhere, error kind `RegexpCapture` on the untouched input. -/
def unique_id (input : List Nat) : PRes (List Nat) :=
  match findAcc input with
  | some (s, n) => .ok (input.drop (s + n)) ((input.drop s).take n)
  | none => .err input .RegexpCapture

/-- `parser::entry_name`: `2..12` alphanumerics, `_`, `2..5` alphanumerics,
returned concatenated (underscore included). -/
def entry_name (input : List Nat) : PRes (List Nat) :=
  pbind (takeWhileMN 2 12 is_alphanumeric input) fun i a =>
  pbind (tagP (bytes "_") i) fun i b =>
  pbind (takeWhileMN 2 5 is_alphanumeric i) fun i c =>
  .ok i (a ++ b ++ c)

/-- `parser::until_os`: everything until the ` OS=` sentinel. -/
def until_os (input : List Nat) : PRes (List Nat) :=
  take_until (bytes " OS=") input

/-- `parser::os_until_ox`: literal `OS=` then everything until ` OX=`. -/
def os_until_ox (input : List Nat) : PRes (List Nat) :=
  pbind (tagP (bytes "OS=") input) fun i _ => take_until (bytes " OX=") i

/-- `parser::organism_id`: literal `OX=` then 1 to 7 digits. -/
def organism_id (input : List Nat) : PRes (List Nat) :=
  pbind (tagP (bytes "OX=") input) fun i _ => takeWhileMN 1 7 is_digit i

/-- Byte class accepted by the fallback arm of `parser::gn`. -/
def gnChar (c : Nat) : Bool :=
  is_alphanumeric c || c == 45 || c == 95 || c == 46

/-- `parser::gn`: literal `GN=` then either everything until ` PE=` or a
nonempty run of alphanumeric/`-`/`_`/`.` bytes (the `alt` keeps the second
arm's error when both fail). -/
def gn (input : List Nat) : PRes (List Nat) :=
  pbind (tagP (bytes "GN=") input) fun i _ =>
    match take_until (bytes " PE=") i with
    | .ok rest v => .ok rest v
    | _ => takeWhile1P gnChar i

/-- nom `combinator::opt`: turn a classic error into a `none` success that
consumes nothing. -/
def optP {α : Type} (r : PRes α) (input : List Nat) : PRes (Option α) :=
  match r with
  | .ok rest v => .ok rest (some v)
  | .err _ _ => .ok input none
  | .incomplete => .incomplete
  | .panicked => .panicked

/-- `parser::optional_gene_name`: `pair(opt(gn), opt(space))`. -/
def optional_gene_name (input : List Nat) :
    PRes (Option (List Nat) × Option (List Nat)) :=
  pbind (optP (gn input) input) fun i g =>
  pbind (optP (space i) i) fun i s =>
  .ok i (g, s)

/-- `parser::evidence`: literal `PE=` then one-or-more digits, mapped onto
`ProteinExistence`; any other digit string reaches the source's
`unreachable!()`, modelled as `panicked`. -/
def evidence (input : List Nat) : PRes ProteinExistence :=
  pbind (tagP (bytes "PE=") input) fun i _ =>
  pbind (takeWhile1P is_digit i) fun i d =>
  if d = bytes "1" then .ok i ProteinExistence.ExperimentalEvidenceProtein
  else if d = bytes "2" then .ok i ProteinExistence.ExperimentalEvidenceTranscript
  else if d = bytes "3" then .ok i ProteinExistence.InferredHomology
  else if d = bytes "4" then .ok i ProteinExistence.Predicted
  else if d = bytes "5" then .ok i ProteinExistence.Uncertain
  else .panicked

/-- `parser::version`: literal `SV=` then exactly one byte. -/
def version (input : List Nat) : PRes (List Nat) :=
  pbind (tagP (bytes "SV=") input) fun i _ => takeN 1 i

/-- `parser::iso_id`: accession, literal `-`, one-or-more digits. -/
def iso_id (input : List Nat) : PRes (List Nat × List Nat) :=
  pbind (unique_id input) fun i id =>
  pbind (tagP (bytes "-") i) fun i _ =>
  pbind (takeWhile1P is_digit i) fun i iso =>
  .ok i (id, iso)

/-- ASCII bytes that Rust's `str::trim` removes at either end. -/
def isWsB (c : Nat) : Bool :=
  c == 32 || c == 9 || c == 10 || c == 11 || c == 12 || c == 13

/-- Byte-level model of `.trim()` on the decoded field text. -/
def trimB (l : List Nat) : List Nat :=
  ((l.dropWhile isWsB).reverse.dropWhile isWsB).reverse

/-- The `UniProtKB` record (`uniprotkb.rs`), fields kept as raw bytes. -/
structure UniProtKB where
  database : Database
  identifier : List Nat
  entry_name : List Nat
  protein_name : List Nat
  organism_name : List Nat
  organism_identifier : List Nat
  gene_name : Option (List Nat)
  protein_existence : ProteinExistence
  sequence_version : List Nat
  deriving DecidableEq, Repr

/-- The `UniProtKBIsoform` record (`uniprotkb_isoform.rs`); it has no
protein-existence and no sequence-version field. -/
structure UniProtKBIsoform where
  database : Database
  identifier : List Nat
  isoform : List Nat
  entry_name : List Nat
  protein_name : List Nat
  organism_name : List Nat
  organism_identifier : List Nat
  gene_name : Option (List Nat)
  deriving DecidableEq, Repr

/-- `uniprotkb::parse_uniprotkb`: the canonical-header assembler, sequencing
the sub-parsers in fixed order; the trims mirror the source exactly (the gene
name is stored without a trim). -/
def parse_uniprotkb (input : List Nat) : PRes UniProtKB :=
  pbind (chevron input) fun i _ =>
  pbind (db i) fun i database =>
  pbind (pipe i) fun i _ =>
  pbind (unique_id i) fun i id =>
  pbind (pipe i) fun i _ =>
  pbind (entry_name i) fun i entry =>
  pbind (space i) fun i _ =>
  pbind (until_os i) fun i protein =>
  pbind (space i) fun i _ =>
  pbind (os_until_ox i) fun i organism =>
  pbind (space i) fun i _ =>
  pbind (organism_id i) fun i organismId =>
  pbind (space i) fun i _ =>
  pbind (optional_gene_name i) fun i gene =>
  pbind (evidence i) fun i ev =>
  pbind (space i) fun i _ =>
  pbind (version i) fun i ver =>
  .ok i
    { database := database
      identifier := trimB id
      entry_name := entry
      protein_name := trimB protein
      organism_name := trimB organism
      organism_identifier := trimB organismId
      gene_name := gene.1
      protein_existence := ev
      sequence_version := trimB ver }

/-- The `UniProtHeaderError` enum (`error.rs`); `ParsingError` keeps the
unconsumed remainder and the failing sub-parser's kind (the source stores the
lossy-decoded remainder and the kind's description string). -/
inductive UniProtHeaderError where
  | ParsingError (rest : List Nat) (kind : NomKind)
  | Incomplete
  deriving DecidableEq, Repr

/-- Outcome of a top-level entry point: a record, a classified failure, or a
propagated Rust panic. -/
inductive TopRes (α : Type) where
  | ok (val : α)
  | err (e : UniProtHeaderError)
  | panicked
  deriving DecidableEq

/-- `uniprotkb::uniprotkb`: run the assembler and classify the failure
(`Incomplete` vs `from_error_kind` on the remainder and kind). -/
def uniprotkb (input : List Nat) : TopRes UniProtKB :=
  match parse_uniprotkb input with
  | .ok _ parsed => .ok parsed
  | .incomplete => .err UniProtHeaderError.Incomplete
  | .err rest kind => .err (UniProtHeaderError.ParsingError rest kind)
  | .panicked => .panicked

/-- `uniprotkb_isoform::parse_uniprotkb_iso`: the isoform-header assembler;
identifier and isoform number are stored without a trim, as in the source. -/
def parse_uniprotkb_iso (input : List Nat) : PRes UniProtKBIsoform :=
  pbind (chevron input) fun i _ =>
  pbind (db i) fun i database =>
  pbind (pipe i) fun i _ =>
  pbind (iso_id i) fun i idIso =>
  pbind (pipe i) fun i _ =>
  pbind (entry_name i) fun i entry =>
  pbind (space i) fun i _ =>
  pbind (until_os i) fun i protein =>
  pbind (space i) fun i _ =>
  pbind (os_until_ox i) fun i organism =>
  pbind (space i) fun i _ =>
  pbind (organism_id i) fun i organismId =>
  pbind (space i) fun i _ =>
  pbind (optional_gene_name i) fun i gene =>
  .ok i
    { database := database
      identifier := idIso.1
      isoform := idIso.2
      entry_name := entry
      protein_name := trimB protein
      organism_name := trimB organism
      organism_identifier := trimB organismId
      gene_name := gene.1 }

/-- `uniprotkb_isoform::uniprotkb_iso`: run the isoform assembler and classify
the failure. -/
def uniprotkb_iso (input : List Nat) : TopRes UniProtKBIsoform :=
  match parse_uniprotkb_iso input with
  | .ok _ parsed => .ok parsed
  | .incomplete => .err UniProtHeaderError.Incomplete
  | .err rest kind => .err (UniProtHeaderError.ParsingError rest kind)
  | .panicked => .panicked

/-- Truth of a top-level outcome being the `Incomplete` failure. -/
def isIncompleteErr {α : Type} : TopRes α → Bool
  | .err UniProtHeaderError.Incomplete => true
  | _ => false

/-- Modelled from the spec: a match of the first accession alternative
`[O|P|Q][digit][alnum2]{3}[digit]` as a whole window (uppercase alphanumeric,
as in the pattern). -/
def accSpecShape1 : List Nat → Bool
  | [c0, c1, c2, c3, c4, c5] =>
    classOPQ c0 && is_digit c1 && classUpperDigit c2 && classUpperDigit c3
      && classUpperDigit c4 && is_digit c5
  | _ => false

/-- Modelled from the spec: a match of the second accession alternative
`[A-N|R-Z][digit]([alnum][alnum2]{2}[digit]){1,2}` as a whole window. -/
def accSpecShape2 : List Nat → Bool
  | [c0, c1, a, b, c, d] => classANRZ c0 && is_digit c1 && grp4 a b c d
  | [c0, c1, a, b, c, d, a2, b2, c2, d2] =>
    classANRZ c0 && is_digit c1 && grp4 a b c d && grp4 a2 b2 c2 d2
  | _ => false

/-- Modelled from the spec: the accession pattern matches the window of `n`
bytes starting at offset `s` of the buffer.  This is the declarative side of
the accession property, to be compared with the engine's scan `findAcc`. -/
def accSpecMatch (input : List Nat) (s n : Nat) : Bool :=
  decide (s + n ≤ input.length)
    && (accSpecShape1 ((input.drop s).take n) || accSpecShape2 ((input.drop s).take n))

/-- State of the `once_cell` holding the compiled accession pattern: empty, or
the one-time-compiled matcher. -/
def CellState : Type := Option (List Nat → Option (Nat × Nat))

/-- A sub-parser that reads and may initialize the process-wide cell. -/
def PResSt (α : Type) : Type := CellState → CellState × PRes α

/-- Sequencing of cell-threading sub-parsers. -/
def stbind {α β : Type} (r : PResSt α) (g : List Nat → α → PResSt β) : PResSt β :=
  fun cell =>
    match r cell with
    | (cell', .ok rest v) => g rest v cell'
    | (cell', .err rest kind) => (cell', .err rest kind)
    | (cell', .incomplete) => (cell', .incomplete)
    | (cell', .panicked) => (cell', .panicked)

/-- A pure sub-parser viewed as one that leaves the cell untouched. -/
def liftSt {α : Type} (r : PRes α) : PResSt α := fun cell => (cell, r)

/-- `parser::unique_id` with the `OnceCell` explicit: `get_or_init` reads the
cached matcher or stores the freshly compiled one (`findAcc`), then searches. -/
def unique_idSt (input : List Nat) : PResSt (List Nat) :=
  fun cell =>
    let f := match cell with
      | some f => f
      | none => findAcc
    (some f,
      match f input with
      | some (s, n) => .ok (input.drop (s + n)) ((input.drop s).take n)
      | none => .err input .RegexpCapture)

/-- `parser::iso_id` with the cell explicit. -/
def iso_idSt (input : List Nat) : PResSt (List Nat × List Nat) :=
  stbind (unique_idSt input) fun i id =>
  stbind (liftSt (tagP (bytes "-") i)) fun i _ =>
  stbind (liftSt (takeWhile1P is_digit i)) fun i iso =>
  fun cell => (cell, .ok i (id, iso))

/-- `uniprotkb::parse_uniprotkb` with the cell explicit. -/
def parse_uniprotkbSt (input : List Nat) : PResSt UniProtKB :=
  stbind (liftSt (chevron input)) fun i _ =>
  stbind (liftSt (db i)) fun i database =>
  stbind (liftSt (pipe i)) fun i _ =>
  stbind (unique_idSt i) fun i id =>
  stbind (liftSt (pipe i)) fun i _ =>
  stbind (liftSt (entry_name i)) fun i entry =>
  stbind (liftSt (space i)) fun i _ =>
  stbind (liftSt (until_os i)) fun i protein =>
  stbind (liftSt (space i)) fun i _ =>
  stbind (liftSt (os_until_ox i)) fun i organism =>
  stbind (liftSt (space i)) fun i _ =>
  stbind (liftSt (organism_id i)) fun i organismId =>
  stbind (liftSt (space i)) fun i _ =>
  stbind (liftSt (optional_gene_name i)) fun i gene =>
  stbind (liftSt (evidence i)) fun i ev =>
  stbind (liftSt (space i)) fun i _ =>
  stbind (liftSt (version i)) fun i ver =>
  fun cell =>
    (cell, .ok i
      { database := database
        identifier := trimB id
        entry_name := entry
        protein_name := trimB protein
        organism_name := trimB organism
        organism_identifier := trimB organismId
        gene_name := gene.1
        protein_existence := ev
        sequence_version := trimB ver })

/-- `uniprotkb_isoform::parse_uniprotkb_iso` with the cell explicit. -/
def parse_uniprotkb_isoSt (input : List Nat) : PResSt UniProtKBIsoform :=
  stbind (liftSt (chevron input)) fun i _ =>
  stbind (liftSt (db i)) fun i database =>
  stbind (liftSt (pipe i)) fun i _ =>
  stbind (iso_idSt i) fun i idIso =>
  stbind (liftSt (pipe i)) fun i _ =>
  stbind (liftSt (entry_name i)) fun i entry =>
  stbind (liftSt (space i)) fun i _ =>
  stbind (liftSt (until_os i)) fun i protein =>
  stbind (liftSt (space i)) fun i _ =>
  stbind (liftSt (os_until_ox i)) fun i organism =>
  stbind (liftSt (space i)) fun i _ =>
  stbind (liftSt (organism_id i)) fun i organismId =>
  stbind (liftSt (space i)) fun i _ =>
  stbind (liftSt (optional_gene_name i)) fun i gene =>
  fun cell =>
    (cell, .ok i
      { database := database
        identifier := idIso.1
        isoform := idIso.2
        entry_name := entry
        protein_name := trimB protein
        organism_name := trimB organism
        organism_identifier := trimB organismId
        gene_name := gene.1 })

/-- `uniprotkb::uniprotkb` with the cell explicit. -/
def uniprotkbSt (cell : CellState) (input : List Nat) : CellState × TopRes UniProtKB :=
  match parse_uniprotkbSt input cell with
  | (cell', .ok _ parsed) => (cell', .ok parsed)
  | (cell', .incomplete) => (cell', .err UniProtHeaderError.Incomplete)
  | (cell', .err rest kind) => (cell', .err (UniProtHeaderError.ParsingError rest kind))
  | (cell', .panicked) => (cell', .panicked)

/-- `uniprotkb_isoform::uniprotkb_iso` with the cell explicit. -/
def uniprotkb_isoSt (cell : CellState) (input : List Nat) :
    CellState × TopRes UniProtKBIsoform :=
  match parse_uniprotkb_isoSt input cell with
  | (cell', .ok _ parsed) => (cell', .ok parsed)
  | (cell', .incomplete) => (cell', .err UniProtHeaderError.Incomplete)
  | (cell', .err rest kind) => (cell', .err (UniProtHeaderError.ParsingError rest kind))
  | (cell', .panicked) => (cell', .panicked)

/-- The cell either still empty or holding the one compiled matcher: the only
states reachable under write-once initialization. -/
def validCell (cell : CellState) : Prop := cell = none ∨ cell = some findAcc

/-! Helper lemmas about the token primitives. -/

theorem takeWhile_of_all {p : Nat → Bool} : ∀ {xs : List Nat},
    (∀ b ∈ xs, p b = true) → xs.takeWhile p = xs := by
  intro xs
  induction xs with
  | nil => intro _; rfl
  | cons a t ih =>
    intro h
    rw [List.takeWhile_cons_of_pos (h a (List.mem_cons_self a t))]
    rw [ih fun b hb => h b (List.mem_cons_of_mem a hb)]

theorem takeWhile_append_of_all {p : Nat → Bool} {xs ys : List Nat}
    (h : ∀ b ∈ xs, p b = true) :
    List.takeWhile p (xs ++ ys) = xs ++ List.takeWhile p ys := by
  rw [List.takeWhile_append, takeWhile_of_all h, if_pos rfl]

theorem isPrefixOfB_append : ∀ (t r : List Nat), isPrefixOfB t (t ++ r) = true := by
  intro t r
  induction t with
  | nil => rfl
  | cons a as ih => simp [isPrefixOfB, ih]

theorem tagP_append (t r : List Nat) : tagP t (t ++ r) = .ok r t := by
  unfold tagP
  rw [isPrefixOfB_append]
  simp [List.drop_left]

/-! C1 — parsing the canonical YPFU_ECOLI header. -/

/-- C1: `uniprotkb` on the exact YPFU_ECOLI header bytes succeeds with origin
SwissProt, identifier `P18355`, entry name `YPFU_ECOLI`, the stated protein
and organism names, organism identifier `83333`, no gene name, existence
level `InferredHomology` and sequence version `1`. -/
theorem uniprotkb_ypfu_ecoli_ok :
    uniprotkb (bytes ">sp|P18355|YPFU_ECOLI Uncharacterized protein in traD-traI intergenic region OS=Escherichia coli (strain K12) OX=83333 PE=3 SV=1")
      = .ok
        { database := Database.SwissProt
          identifier := bytes "P18355"
          entry_name := bytes "YPFU_ECOLI"
          protein_name := bytes "Uncharacterized protein in traD-traI intergenic region"
          organism_name := bytes "Escherichia coli (strain K12)"
          organism_identifier := bytes "83333"
          gene_name := none
          protein_existence := ProteinExistence.InferredHomology
          sequence_version := bytes "1" } := by
  rfl

/-! C2 — an existence digit outside 1..5 reaches the source's
`unreachable!()` and panics instead of returning a Malformed failure. -/

/-- C2: on otherwise valid headers carrying `PE=6` and `PE=12` the canonical
parse does not return a classified failure: the existence step reaches the
source's `unreachable!()` arm and the whole call panics. -/
theorem uniprotkb_existence_out_of_range_panics :
    uniprotkb (bytes ">sp|P12345|AB_CD Prot OS=Org OX=9606 PE=6 SV=1") = .panicked
    ∧ uniprotkb (bytes ">sp|P12345|AB_CD Prot OS=Org OX=9606 PE=12 SV=1") = .panicked := by
  exact ⟨rfl, rfl⟩

/-! C3 — truncated input yields a Malformed `ParsingError`, never the
`Incomplete` variant, because the crate uses `bytes::complete` combinators. -/

/-- C3 counterexample: on a canonical header truncated before any ` OS=`
sentinel, `uniprotkb` returns the Malformed `ParsingError` failure (missing
sentinel, remainder `Prot`), which is a different value from `Incomplete` —
refuting the claim that such input yields the `Incomplete` failure. -/
theorem uniprotkb_truncated_is_malformed_cex :
    uniprotkb (bytes ">sp|P12345|AB_CD Prot")
      = .err (UniProtHeaderError.ParsingError (bytes "Prot") NomKind.TakeUntil)
    ∧ UniProtHeaderError.ParsingError (bytes "Prot") NomKind.TakeUntil
        ≠ UniProtHeaderError.Incomplete := by
  exact ⟨rfl, by decide⟩

/-! C4 — the gene name is stored exactly as delimited, with no trim. -/

/-- C4 counterexample: on a header whose gene text as delimited by the first
` PE=` sentinel ends in a space (`GN=x  PE=3`), the stored gene name is the
raw `x ` — not the trimmed `x` — refuting the claim that surrounding
whitespace is removed from the gene name. -/
theorem uniprotkb_gene_name_untrimmed_cex :
    uniprotkb (bytes ">sp|P12345|AB_CD Prot OS=Org OX=9606 GN=x  PE=3 SV=1")
      = .ok
        { database := Database.SwissProt
          identifier := bytes "P12345"
          entry_name := bytes "AB_CD"
          protein_name := bytes "Prot"
          organism_name := bytes "Org"
          organism_identifier := bytes "9606"
          gene_name := some (bytes "x ")
          protein_existence := ProteinExistence.InferredHomology
          sequence_version := bytes "1" }
    ∧ some (bytes "x ") ≠ some (trimB (bytes "x ")) := by
  exact ⟨rfl, by decide⟩

/-! C7 — parsing the isoform 1433B_MACFA header. -/

/-- C7: `uniprotkb_iso` on the exact 1433B_MACFA isoform header bytes succeeds
with identifier `Q4R572`, isoform number `2`, gene name `YWHAB`, entry name
`1433B_MACFA`, the stated protein and organism names and organism identifier
`9541`; the isoform record type has no existence or version field. -/
theorem uniprotkb_iso_1433b_macfa_ok :
    uniprotkb_iso (bytes ">sp|Q4R572-2|1433B_MACFA Isoform Short of 14-3-3 protein beta/alpha OS=Macaca fascicularis OX=9541 GN=YWHAB")
      = .ok
        { database := Database.SwissProt
          identifier := bytes "Q4R572"
          isoform := bytes "2"
          entry_name := bytes "1433B_MACFA"
          protein_name := bytes "Isoform Short of 14-3-3 protein beta/alpha"
          organism_name := bytes "Macaca fascicularis"
          organism_identifier := bytes "9541"
          gene_name := some (bytes "YWHAB") } := by
  rfl

/-! C8 — a failing step aborts the assembly and the classified failure keeps
the unconsumed remainder and the failing sub-parser's kind. -/

/-- C8: whenever the canonical assembler fails with a classic error, the entry
point returns `ParsingError` carrying exactly that remainder and kind; and on
every input beginning `>xx|` the parse fails at the database step with the
tag-mismatch kind and the remainder starting at `xx|`. -/
theorem uniprotkb_failure_context :
    (∀ input rest kind, parse_uniprotkb input = .err rest kind →
        uniprotkb input = .err (UniProtHeaderError.ParsingError rest kind))
    ∧ (∀ r, uniprotkb (bytes ">xx|" ++ r)
        = .err (UniProtHeaderError.ParsingError (bytes "xx|" ++ r) NomKind.Tag)) := by
  constructor
  · intro input rest kind h
    unfold uniprotkb
    rw [h]
  · intro r
    rfl

/-- C8 witness: the general part applied at the concrete input `>sp` (which
fails at the first pipe with remainder empty) and the `>xx|` part applied with
trailing bytes `A`. -/
theorem uniprotkb_failure_context_witness :
    uniprotkb (bytes ">sp") = .err (UniProtHeaderError.ParsingError [] NomKind.Tag)
    ∧ uniprotkb (bytes ">xx|" ++ bytes "A")
        = .err (UniProtHeaderError.ParsingError (bytes "xx|" ++ bytes "A") NomKind.Tag) := by
  exact ⟨uniprotkb_failure_context.1 _ _ _ rfl, uniprotkb_failure_context.2 (bytes "A")⟩

/-! More helper lemmas about `takeWhileMN` and `tagP`. -/

theorem takeWhileMN_append_exact {p : Nat → Bool} {m n : Nat} {X rest : List Nat}
    (hX : ∀ b ∈ X, p b = true) (hr : rest.takeWhile p = [])
    (hm : m ≤ X.length) (hn : X.length ≤ n) :
    takeWhileMN m n p (X ++ rest) = .ok rest X := by
  unfold takeWhileMN
  rw [takeWhile_append_of_all hX, hr, List.append_nil]
  rw [if_neg (by omega)]
  rw [Nat.min_eq_left hn, List.take_left, List.drop_left]

theorem takeWhileMN_append_overflow {p : Nat → Bool} {m n : Nat} {X rest : List Nat}
    (hX : ∀ b ∈ X, p b = true) (hr : rest.takeWhile p = [])
    (hm : m ≤ n) (hn : n < X.length) :
    takeWhileMN m n p (X ++ rest) = .ok (X.drop n ++ rest) (X.take n) := by
  unfold takeWhileMN
  rw [takeWhile_append_of_all hX, hr, List.append_nil]
  rw [if_neg (by omega)]
  have hmin : min X.length n = n := by omega
  rw [hmin, List.take_append_of_le_length (le_of_lt hn),
    List.drop_append_of_le_length (le_of_lt hn)]

theorem takeWhileMN_append_short {p : Nat → Bool} {m n : Nat} {X rest : List Nat}
    (hX : ∀ b ∈ X, p b = true) (hr : rest.takeWhile p = [])
    (hm : X.length < m) :
    takeWhileMN m n p (X ++ rest) = .err (X ++ rest) .TakeWhileMN := by
  unfold takeWhileMN
  rw [takeWhile_append_of_all hX, hr, List.append_nil]
  rw [if_pos (by omega)]

theorem takeWhileMN_all_exact {p : Nat → Bool} {m n : Nat} {X : List Nat}
    (hX : ∀ b ∈ X, p b = true) (hm : m ≤ X.length) (hn : X.length ≤ n) :
    takeWhileMN m n p X = .ok [] X := by
  unfold takeWhileMN
  rw [takeWhile_of_all hX]
  rw [if_neg (by omega)]
  rw [Nat.min_eq_left hn, List.take_length, List.drop_length]

theorem takeWhileMN_all_overflow {p : Nat → Bool} {m n : Nat} {X : List Nat}
    (hX : ∀ b ∈ X, p b = true) (hm : m ≤ n) (hn : n < X.length) :
    takeWhileMN m n p X = .ok (X.drop n) (X.take n) := by
  unfold takeWhileMN
  rw [takeWhile_of_all hX]
  rw [if_neg (by omega)]
  have hmin : min X.length n = n := by omega
  rw [hmin]

theorem takeWhileMN_all_short {p : Nat → Bool} {m n : Nat} {X : List Nat}
    (hX : ∀ b ∈ X, p b = true) (hm : X.length < m) :
    takeWhileMN m n p X = .err X .TakeWhileMN := by
  unfold takeWhileMN
  rw [takeWhile_of_all hX]
  rw [if_pos (by omega)]

theorem tagP_cons_ne {a b : Nat} {t rest : List Nat} (h : (a == b) = false) :
    tagP (a :: t) (b :: rest) = .err (b :: rest) .Tag := by
  have hpre : isPrefixOfB (a :: t) (b :: rest) = false := by
    show (a == b && isPrefixOfB t rest) = false
    rw [h, Bool.false_and]
  unfold tagP
  rw [hpre]
  simp

theorem alnum_ne_underscore {b : Nat} (h : is_alphanumeric b = true) :
    ((95 : Nat) == b) = false := by
  have hb : b ≠ 95 := by
    intro e
    subst e
    exact absurd h (by decide)
  simp [Ne.symm hb]

/-! C6 — length bounds of the entry-name parser. -/

/-- C6: on any buffer of shape `X_Y` with alphanumeric runs `X` (length 2..12)
and `Y` (length 2..5) the entry-name sub-parser succeeds and returns exactly
`X_Y` (underscore included); it fails when the first run is shorter than 2 or
longer than 12, and on any purely alphanumeric buffer with no underscore. -/
theorem entry_name_bounds :
    (∀ X Y : List Nat, (∀ b ∈ X, is_alphanumeric b = true) →
      (∀ b ∈ Y, is_alphanumeric b = true) →
      2 ≤ X.length → X.length ≤ 12 → 2 ≤ Y.length → Y.length ≤ 5 →
      entry_name (X ++ 95 :: Y) = .ok [] (X ++ 95 :: Y))
    ∧ (∀ X Y : List Nat, (∀ b ∈ X, is_alphanumeric b = true) → X.length < 2 →
      (entry_name (X ++ 95 :: Y)).isErr = true)
    ∧ (∀ X Y : List Nat, (∀ b ∈ X, is_alphanumeric b = true) → 12 < X.length →
      (entry_name (X ++ 95 :: Y)).isErr = true)
    ∧ (∀ Z : List Nat, (∀ b ∈ Z, is_alphanumeric b = true) →
      (entry_name Z).isErr = true) := by
  have h95 : ((95 : Nat) :: ([] : List Nat)).takeWhile is_alphanumeric = [] :=
    List.takeWhile_cons_of_neg (by decide)
  refine ⟨?_, ?_, ?_, ?_⟩
  · intro X Y hX hY h2 h12 hY2 hY5
    unfold entry_name
    have hcons : ∀ L : List Nat, (95 : Nat) :: L = [95] ++ L := fun _ => rfl
    have hstep1 : takeWhileMN 2 12 is_alphanumeric (X ++ 95 :: Y) = .ok (95 :: Y) X := by
      refine takeWhileMN_append_exact hX ?_ h2 h12
      exact List.takeWhile_cons_of_neg (by decide)
    rw [hstep1]
    simp only [pbind]
    rw [hcons Y, show (bytes "_") = [95] from rfl, tagP_append]
    simp only [pbind]
    have hstep3 : takeWhileMN 2 5 is_alphanumeric Y = .ok [] Y :=
      takeWhileMN_all_exact hY hY2 hY5
    rw [hstep3]
    simp only [pbind]
    simp
  · intro X Y hX hshort
    unfold entry_name
    rw [takeWhileMN_append_short hX (List.takeWhile_cons_of_neg (by decide)) hshort]
    rfl
  · intro X Y hX hlong
    unfold entry_name
    rw [takeWhileMN_append_overflow hX (List.takeWhile_cons_of_neg (by decide))
      (by omega) hlong]
    simp only [pbind]
    have h12 : 12 < X.length := hlong
    rw [List.drop_eq_getElem_cons h12, List.cons_append]
    rw [show (bytes "_") = [95] from rfl,
      tagP_cons_ne (alnum_ne_underscore (hX _ (List.getElem_mem h12)))]
    rfl
  · intro Z hZ
    unfold entry_name
    by_cases hshort : Z.length < 2
    · have hs : takeWhileMN 2 12 is_alphanumeric Z = .err Z .TakeWhileMN :=
        takeWhileMN_all_short hZ hshort
      rw [hs]
      rfl
    · by_cases hlong : Z.length ≤ 12
      · have hs : takeWhileMN 2 12 is_alphanumeric Z = .ok [] Z :=
          takeWhileMN_all_exact hZ (by omega) hlong
        rw [hs]
        simp only [pbind]
        rw [show (bytes "_") = [95] from rfl]
        rfl
      · have hl : 12 < Z.length := by omega
        have hs : takeWhileMN 2 12 is_alphanumeric Z = .ok (Z.drop 12) (Z.take 12) :=
          takeWhileMN_all_overflow hZ (by omega) hl
        rw [hs]
        simp only [pbind]
        rw [List.drop_eq_getElem_cons hl]
        rw [show (bytes "_") = [95] from rfl,
          tagP_cons_ne (alnum_ne_underscore (hZ _ (List.getElem_mem hl)))]
        rfl

/-- C6 witness: the four parts applied at `AB_CD` (success, returning the
whole mnemonic pair), `A_CD` (first run too short), `ABCDEFGHIJKLM_CD` (first
run of 13 too long) and `ABCD` (no underscore). -/
theorem entry_name_bounds_witness :
    entry_name (bytes "AB" ++ 95 :: bytes "CD") = .ok [] (bytes "AB" ++ 95 :: bytes "CD")
    ∧ (entry_name (bytes "A" ++ 95 :: bytes "CD")).isErr = true
    ∧ (entry_name (bytes "ABCDEFGHIJKLM" ++ 95 :: bytes "CD")).isErr = true
    ∧ (entry_name (bytes "ABCD")).isErr = true := by
  refine ⟨?_, ?_, ?_, ?_⟩
  · exact entry_name_bounds.1 (bytes "AB") (bytes "CD") (by decide) (by decide)
      (by decide) (by decide) (by decide) (by decide)
  · exact entry_name_bounds.2.1 (bytes "A") (bytes "CD") (by decide) (by decide)
  · exact entry_name_bounds.2.2.1 (bytes "ABCDEFGHIJKLM") (bytes "CD") (by decide)
      (by decide)
  · exact entry_name_bounds.2.2.2 (bytes "ABCD") (by decide)

/-! C4 (amended) — the gene name is returned exactly as delimited by the
first ` PE=` sentinel, with no trimming. -/

/-- C4 amended: on `GN=<text> PE=...` the gene sub-parser returns `<text>`
exactly as delimited by the first ` PE=` occurrence — untrimmed — and on the
concrete header `... GN=x  PE=3 SV=1` the stored gene name keeps its trailing
space. -/
theorem gene_name_stored_raw :
    (∀ t r : List Nat,
      findSub (bytes " PE=") (t ++ (bytes " PE=" ++ r)) = some t.length →
      gn (bytes "GN=" ++ (t ++ (bytes " PE=" ++ r))) = .ok (bytes " PE=" ++ r) t)
    ∧ uniprotkb (bytes ">sp|P12345|AB_CD Prot OS=Org OX=9606 GN=x  PE=3 SV=1")
        = .ok
          { database := Database.SwissProt
            identifier := bytes "P12345"
            entry_name := bytes "AB_CD"
            protein_name := bytes "Prot"
            organism_name := bytes "Org"
            organism_identifier := bytes "9606"
            gene_name := some (bytes "x ")
            protein_existence := ProteinExistence.InferredHomology
            sequence_version := bytes "1" } := by
  constructor
  · intro t r h
    unfold gn
    rw [tagP_append]
    simp only [pbind]
    unfold take_until
    rw [h]
    simp only [List.take_left, List.drop_left]
  · rfl

/-- C4 amended witness: the sentinel-delimited part applied at gene text `x `
(trailing space kept) followed by ` PE=3 SV=1`. -/
theorem gene_name_stored_raw_witness :
    gn (bytes "GN=" ++ (bytes "x " ++ (bytes " PE=" ++ bytes "3 SV=1")))
      = .ok (bytes " PE=" ++ bytes "3 SV=1") (bytes "x ") := by
  exact gene_name_stored_raw.1 (bytes "x ") (bytes "3 SV=1") rfl

/-! C10 — an `OX=` field followed by eight or more digits: the organism-id
step consumes exactly seven digits and the following whitespace step rejects
the parse at the eighth digit. -/

theorem space_err_of_digit_cons {d : Nat} {t : List Nat} (hd : is_digit d = true) :
    space (d :: t) = .err (d :: t) .TakeWhile1 := by
  have hds : (d == 32 || d == 9) = false := by
    have h48 : 48 ≤ d := by
      have := hd
      unfold is_digit at this
      simp at this
      omega
    have h1 : (d == 32) = false := by simp; omega
    have h2 : (d == 9) = false := by simp; omega
    rw [h1, h2]
    rfl
  unfold space takeWhile1P
  rw [List.takeWhile_cons_of_neg (by simp [hds])]

/-- The canonical assembler on the fixed valid prefix
`>sp|P12345|AB_CD Prot OS=Org OX=` followed by an arbitrary tail reduces to
the pipeline from the organism-id digits onward (all earlier steps succeed on
the concrete prefix regardless of the tail). -/
theorem parse_uniprotkb_ox_tail (tail : List Nat) :
    parse_uniprotkb (bytes ">sp|P12345|AB_CD Prot OS=Org OX=" ++ tail) =
      pbind (takeWhileMN 1 7 is_digit tail) (fun i oid =>
      pbind (space i) fun i _ =>
      pbind (optional_gene_name i) fun i gene =>
      pbind (evidence i) fun i ev =>
      pbind (space i) fun i _ =>
      pbind (version i) fun i ver =>
      .ok i
        { database := Database.SwissProt
          identifier := bytes "P12345"
          entry_name := bytes "AB_CD"
          protein_name := bytes "Prot"
          organism_name := bytes "Org"
          organism_identifier := trimB oid
          gene_name := gene.1
          protein_existence := ev
          sequence_version := trimB ver }) := by
  have h1 : chevron (bytes ">sp|P12345|AB_CD Prot OS=Org OX=" ++ tail)
      = .ok (bytes "sp|P12345|AB_CD Prot OS=Org OX=" ++ tail) (bytes ">") := rfl
  have h2 : db (bytes "sp|P12345|AB_CD Prot OS=Org OX=" ++ tail)
      = .ok (bytes "|P12345|AB_CD Prot OS=Org OX=" ++ tail) Database.SwissProt := rfl
  have h3 : pipe (bytes "|P12345|AB_CD Prot OS=Org OX=" ++ tail)
      = .ok (bytes "P12345|AB_CD Prot OS=Org OX=" ++ tail) (bytes "|") := rfl
  have h4 : unique_id (bytes "P12345|AB_CD Prot OS=Org OX=" ++ tail)
      = .ok (bytes "|AB_CD Prot OS=Org OX=" ++ tail) (bytes "P12345") := rfl
  have h5 : pipe (bytes "|AB_CD Prot OS=Org OX=" ++ tail)
      = .ok (bytes "AB_CD Prot OS=Org OX=" ++ tail) (bytes "|") := rfl
  have h6 : entry_name (bytes "AB_CD Prot OS=Org OX=" ++ tail)
      = .ok (bytes " Prot OS=Org OX=" ++ tail) (bytes "AB_CD") := rfl
  have h7 : space (bytes " Prot OS=Org OX=" ++ tail)
      = .ok (bytes "Prot OS=Org OX=" ++ tail) (bytes " ") := rfl
  have h8 : until_os (bytes "Prot OS=Org OX=" ++ tail)
      = .ok (bytes " OS=Org OX=" ++ tail) (bytes "Prot") := rfl
  have h9 : space (bytes " OS=Org OX=" ++ tail)
      = .ok (bytes "OS=Org OX=" ++ tail) (bytes " ") := rfl
  have h10 : os_until_ox (bytes "OS=Org OX=" ++ tail)
      = .ok (bytes " OX=" ++ tail) (bytes "Org") := rfl
  have h11 : space (bytes " OX=" ++ tail)
      = .ok (bytes "OX=" ++ tail) (bytes " ") := rfl
  have h12 : organism_id (bytes "OX=" ++ tail) = takeWhileMN 1 7 is_digit tail := by
    unfold organism_id
    rw [tagP_append]
    rfl
  unfold parse_uniprotkb
  rw [h1]
  simp only [pbind]
  rw [h2]
  simp only [pbind]
  rw [h3]
  simp only [pbind]
  rw [h4]
  simp only [pbind]
  rw [h5]
  simp only [pbind]
  rw [h6]
  simp only [pbind]
  rw [h7]
  simp only [pbind]
  rw [h8]
  simp only [pbind]
  rw [h9]
  simp only [pbind]
  rw [h10]
  simp only [pbind]
  rw [h11]
  simp only [pbind]
  rw [h12]
  rfl

/-- C10: with eight or more consecutive digits after `OX=`, the organism-id
sub-parser itself succeeds consuming exactly the first seven digits, the
whitespace step then fails on the eighth digit, and the whole canonical parse
returns a failure whose remainder begins at the eighth digit. -/
theorem organism_id_digit_overflow :
    (∀ ds rest : List Nat, (∀ b ∈ ds, is_digit b = true) → 8 ≤ ds.length →
        rest.takeWhile is_digit = [] →
        organism_id (bytes "OX=" ++ (ds ++ rest)) = .ok (ds.drop 7 ++ rest) (ds.take 7)
        ∧ space (ds.drop 7 ++ rest) = .err (ds.drop 7 ++ rest) NomKind.TakeWhile1)
    ∧ (∀ ds : List Nat, (∀ b ∈ ds, is_digit b = true) → 8 ≤ ds.length →
        uniprotkb (bytes ">sp|P12345|AB_CD Prot OS=Org OX=" ++ (ds ++ bytes " PE=3 SV=1"))
          = .err (UniProtHeaderError.ParsingError (ds.drop 7 ++ bytes " PE=3 SV=1")
              NomKind.TakeWhile1)) := by
  have hspace : ∀ ds rest : List Nat, (∀ b ∈ ds, is_digit b = true) → 8 ≤ ds.length →
      space (ds.drop 7 ++ rest) = .err (ds.drop 7 ++ rest) NomKind.TakeWhile1 := by
    intro ds rest hds hlen
    have h7 : 7 < ds.length := by omega
    rw [List.drop_eq_getElem_cons h7, List.cons_append]
    exact space_err_of_digit_cons (hds _ (List.getElem_mem h7))
  constructor
  · intro ds rest hds hlen hrest
    refine ⟨?_, hspace ds rest hds hlen⟩
    unfold organism_id
    rw [tagP_append]
    simp only [pbind]
    exact takeWhileMN_append_overflow hds hrest (by omega) (by omega)
  · intro ds hds hlen
    unfold uniprotkb
    rw [parse_uniprotkb_ox_tail]
    rw [takeWhileMN_append_overflow hds (by decide) (by omega) (by omega)]
    simp only [pbind]
    rw [hspace ds (bytes " PE=3 SV=1") hds hlen]

/-- C10 witness: the sub-parser part and the full-parse part applied at the
concrete digit run `12345678`; the failure remainder starts at the digit `8`. -/
theorem organism_id_digit_overflow_witness :
    organism_id (bytes "OX=" ++ (bytes "12345678" ++ bytes " PE=3"))
      = .ok ((bytes "12345678").drop 7 ++ bytes " PE=3") ((bytes "12345678").take 7)
    ∧ space ((bytes "12345678").drop 7 ++ bytes " PE=3")
      = .err ((bytes "12345678").drop 7 ++ bytes " PE=3") NomKind.TakeWhile1
    ∧ uniprotkb (bytes ">sp|P12345|AB_CD Prot OS=Org OX=" ++ (bytes "12345678" ++ bytes " PE=3 SV=1"))
      = .err (UniProtHeaderError.ParsingError ((bytes "12345678").drop 7 ++ bytes " PE=3 SV=1")
          NomKind.TakeWhile1) := by
  refine ⟨?_, ?_, ?_⟩
  · exact (organism_id_digit_overflow.1 (bytes "12345678") (bytes " PE=3")
      (by decide) (by decide) (by decide)).1
  · exact (organism_id_digit_overflow.1 (bytes "12345678") (bytes " PE=3")
      (by decide) (by decide) (by decide)).2
  · exact organism_id_digit_overflow.2 (bytes "12345678") (by decide) (by decide)

/-! C3 (amended) — the assembler can never produce nom's `Incomplete`: every
sub-parser of the crate is a `bytes::complete` combinator. -/

theorem pbind_ni {α β : Type} {r : PRes α} {f : List Nat → α → PRes β}
    (h : r ≠ PRes.incomplete) (hf : ∀ i v, f i v ≠ PRes.incomplete) :
    pbind r f ≠ PRes.incomplete := by
  cases r with
  | ok i v => exact hf i v
  | err i k => simp [pbind]
  | incomplete => exact absurd rfl h
  | panicked => simp [pbind]

theorem tagP_ni (t input : List Nat) : tagP t input ≠ PRes.incomplete := by
  unfold tagP
  split <;> simp

theorem takeWhile1P_ni (p : Nat → Bool) (input : List Nat) :
    takeWhile1P p input ≠ PRes.incomplete := by
  unfold takeWhile1P
  split <;> simp

theorem takeWhileMN_ni (m n : Nat) (p : Nat → Bool) (input : List Nat) :
    takeWhileMN m n p input ≠ PRes.incomplete := by
  unfold takeWhileMN
  split <;> simp

theorem take_until_ni (pat input : List Nat) : take_until pat input ≠ PRes.incomplete := by
  unfold take_until
  split <;> simp

theorem takeN_ni (n : Nat) (input : List Nat) : takeN n input ≠ PRes.incomplete := by
  unfold takeN
  split <;> simp

theorem chevron_ni (input : List Nat) : chevron input ≠ PRes.incomplete := tagP_ni _ _

theorem pipe_ni (input : List Nat) : pipe input ≠ PRes.incomplete := tagP_ni _ _

theorem space_ni (input : List Nat) : space input ≠ PRes.incomplete := takeWhile1P_ni _ _

theorem db_ni (input : List Nat) : db input ≠ PRes.incomplete := by
  unfold db
  split
  · simp
  · split
    · simp
    · simp
    · rename_i h2
      exact absurd h2 (tagP_ni _ _)
    · simp

theorem unique_id_ni (input : List Nat) : unique_id input ≠ PRes.incomplete := by
  unfold unique_id
  split <;> simp

theorem entry_name_ni (input : List Nat) : entry_name input ≠ PRes.incomplete := by
  unfold entry_name
  refine pbind_ni (takeWhileMN_ni _ _ _ _) fun i a => ?_
  refine pbind_ni (tagP_ni _ _) fun i b => ?_
  refine pbind_ni (takeWhileMN_ni _ _ _ _) fun i c => ?_
  simp

theorem until_os_ni (input : List Nat) : until_os input ≠ PRes.incomplete :=
  take_until_ni _ _

theorem os_until_ox_ni (input : List Nat) : os_until_ox input ≠ PRes.incomplete := by
  unfold os_until_ox
  exact pbind_ni (tagP_ni _ _) fun i _ => take_until_ni _ _

theorem organism_id_ni (input : List Nat) : organism_id input ≠ PRes.incomplete := by
  unfold organism_id
  exact pbind_ni (tagP_ni _ _) fun i _ => takeWhileMN_ni _ _ _ _

theorem gn_ni (input : List Nat) : gn input ≠ PRes.incomplete := by
  unfold gn
  refine pbind_ni (tagP_ni _ _) fun i _ => ?_
  split
  · simp
  · exact takeWhile1P_ni _ _

theorem optP_ni {α : Type} (r : PRes α) (input : List Nat) (h : r ≠ PRes.incomplete) :
    optP r input ≠ PRes.incomplete := by
  unfold optP
  cases r with
  | ok i v => simp
  | err i k => simp
  | incomplete => exact absurd rfl h
  | panicked => simp

theorem optional_gene_name_ni (input : List Nat) :
    optional_gene_name input ≠ PRes.incomplete := by
  unfold optional_gene_name
  refine pbind_ni (optP_ni _ _ (gn_ni _)) fun i g => ?_
  refine pbind_ni (optP_ni _ _ (space_ni _)) fun i s => ?_
  simp

theorem evidence_ni (input : List Nat) : evidence input ≠ PRes.incomplete := by
  unfold evidence
  refine pbind_ni (tagP_ni _ _) fun i _ => ?_
  refine pbind_ni (takeWhile1P_ni _ _) fun i d => ?_
  split
  · simp
  · split
    · simp
    · split
      · simp
      · split
        · simp
        · split <;> simp

theorem version_ni (input : List Nat) : version input ≠ PRes.incomplete := by
  unfold version
  exact pbind_ni (tagP_ni _ _) fun i _ => takeN_ni _ _

theorem parse_uniprotkb_ni (input : List Nat) : parse_uniprotkb input ≠ PRes.incomplete := by
  unfold parse_uniprotkb
  refine pbind_ni (chevron_ni _) fun i a => ?_
  refine pbind_ni (db_ni _) fun i a => ?_
  refine pbind_ni (pipe_ni _) fun i a => ?_
  refine pbind_ni (unique_id_ni _) fun i a => ?_
  refine pbind_ni (pipe_ni _) fun i a => ?_
  refine pbind_ni (entry_name_ni _) fun i a => ?_
  refine pbind_ni (space_ni _) fun i a => ?_
  refine pbind_ni (until_os_ni _) fun i a => ?_
  refine pbind_ni (space_ni _) fun i a => ?_
  refine pbind_ni (os_until_ox_ni _) fun i a => ?_
  refine pbind_ni (space_ni _) fun i a => ?_
  refine pbind_ni (organism_id_ni _) fun i a => ?_
  refine pbind_ni (space_ni _) fun i a => ?_
  refine pbind_ni (optional_gene_name_ni _) fun i a => ?_
  refine pbind_ni (evidence_ni _) fun i a => ?_
  refine pbind_ni (space_ni _) fun i a => ?_
  refine pbind_ni (version_ni _) fun i a => ?_
  simp

/-- C3 amended: the canonical entry point never returns the `Incomplete`
failure (the crate's sub-parsers are all complete-style, so the assembler can
never produce nom's `Incomplete`); input truncated before the ` OS=` sentinel
yields the Malformed `ParsingError` with the missing-sentinel category and the
unconsumed remainder instead. -/
theorem uniprotkb_never_incomplete :
    (∀ input : List Nat, isIncompleteErr (uniprotkb input) = false)
    ∧ uniprotkb (bytes ">sp|P12345|AB_CD Prot")
        = .err (UniProtHeaderError.ParsingError (bytes "Prot") NomKind.TakeUntil) := by
  constructor
  · intro input
    unfold uniprotkb
    cases h : parse_uniprotkb input with
    | ok i v => simp [isIncompleteErr]
    | err i k => simp [isIncompleteErr]
    | incomplete => exact absurd h (parse_uniprotkb_ni input)
    | panicked => simp [isIncompleteErr]
  · rfl

/-! C9 — purity and determinism of the entry points: the only shared state is
the write-once accession-pattern cell, and it does not affect results. -/

theorem unique_idSt_valid (input : List Nat) (c : CellState) (hc : validCell c) :
    unique_idSt input c = (some findAcc, unique_id input) := by
  rcases hc with rfl | rfl <;> rfl

theorem stbind_lift_congr {α β : Type} {r : PRes α} {g : List Nat → α → PResSt β}
    {f : List Nat → α → PRes β} {c : CellState} (hc : validCell c)
    (hg : ∀ i v c', validCell c' → (g i v c').2 = f i v ∧ validCell (g i v c').1) :
    (stbind (liftSt r) g c).2 = pbind r f ∧ validCell (stbind (liftSt r) g c).1 := by
  cases r with
  | ok i v => exact hg i v c hc
  | err i k => exact ⟨rfl, hc⟩
  | incomplete => exact ⟨rfl, hc⟩
  | panicked => exact ⟨rfl, hc⟩

theorem stbind_uid_congr {β : Type} {input : List Nat}
    {g : List Nat → List Nat → PResSt β} {f : List Nat → List Nat → PRes β}
    {c : CellState} (hc : validCell c)
    (hg : ∀ i v c', validCell c' → (g i v c').2 = f i v ∧ validCell (g i v c').1) :
    (stbind (unique_idSt input) g c).2 = pbind (unique_id input) f
    ∧ validCell (stbind (unique_idSt input) g c).1 := by
  unfold stbind
  rw [unique_idSt_valid input c hc]
  cases h : unique_id input with
  | ok i v => exact hg i v (some findAcc) (Or.inr rfl)
  | err i k => exact ⟨rfl, Or.inr rfl⟩
  | incomplete => exact ⟨rfl, Or.inr rfl⟩
  | panicked => exact ⟨rfl, Or.inr rfl⟩

theorem iso_idSt_valid (input : List Nat) (c : CellState) (hc : validCell c) :
    iso_idSt input c = (some findAcc, iso_id input) := by
  unfold iso_idSt iso_id stbind
  rw [unique_idSt_valid input c hc]
  cases h : unique_id input with
  | ok i v =>
    simp only [liftSt, pbind]
    cases h2 : tagP (bytes "-") i with
    | ok i2 v2 =>
      simp only [pbind]
      cases h3 : takeWhile1P is_digit i2 <;> simp [pbind]
    | err i2 k2 => simp [pbind]
    | incomplete => simp [pbind]
    | panicked => simp [pbind]
  | err i k => simp [pbind]
  | incomplete => simp [pbind]
  | panicked => simp [pbind]

theorem stbind_isoid_congr {β : Type} {input : List Nat}
    {g : List Nat → List Nat × List Nat → PResSt β}
    {f : List Nat → List Nat × List Nat → PRes β}
    {c : CellState} (hc : validCell c)
    (hg : ∀ i v c', validCell c' → (g i v c').2 = f i v ∧ validCell (g i v c').1) :
    (stbind (iso_idSt input) g c).2 = pbind (iso_id input) f
    ∧ validCell (stbind (iso_idSt input) g c).1 := by
  unfold stbind
  rw [iso_idSt_valid input c hc]
  cases h : iso_id input with
  | ok i v => exact hg i v (some findAcc) (Or.inr rfl)
  | err i k => exact ⟨rfl, Or.inr rfl⟩
  | incomplete => exact ⟨rfl, Or.inr rfl⟩
  | panicked => exact ⟨rfl, Or.inr rfl⟩

theorem parse_uniprotkbSt_eq (input : List Nat) (c : CellState) (hc : validCell c) :
    (parse_uniprotkbSt input c).2 = parse_uniprotkb input
    ∧ validCell (parse_uniprotkbSt input c).1 := by
  unfold parse_uniprotkbSt parse_uniprotkb
  refine stbind_lift_congr hc fun i v c' hc' => ?_
  refine stbind_lift_congr hc' fun i v c' hc' => ?_
  refine stbind_lift_congr hc' fun i v c' hc' => ?_
  refine stbind_uid_congr hc' fun i v c' hc' => ?_
  refine stbind_lift_congr hc' fun i v c' hc' => ?_
  refine stbind_lift_congr hc' fun i v c' hc' => ?_
  refine stbind_lift_congr hc' fun i v c' hc' => ?_
  refine stbind_lift_congr hc' fun i v c' hc' => ?_
  refine stbind_lift_congr hc' fun i v c' hc' => ?_
  refine stbind_lift_congr hc' fun i v c' hc' => ?_
  refine stbind_lift_congr hc' fun i v c' hc' => ?_
  refine stbind_lift_congr hc' fun i v c' hc' => ?_
  refine stbind_lift_congr hc' fun i v c' hc' => ?_
  refine stbind_lift_congr hc' fun i v c' hc' => ?_
  refine stbind_lift_congr hc' fun i v c' hc' => ?_
  refine stbind_lift_congr hc' fun i v c' hc' => ?_
  refine stbind_lift_congr hc' fun i v c' hc' => ?_
  exact ⟨rfl, hc'⟩

theorem parse_uniprotkb_isoSt_eq (input : List Nat) (c : CellState) (hc : validCell c) :
    (parse_uniprotkb_isoSt input c).2 = parse_uniprotkb_iso input
    ∧ validCell (parse_uniprotkb_isoSt input c).1 := by
  unfold parse_uniprotkb_isoSt parse_uniprotkb_iso
  refine stbind_lift_congr hc fun i v c' hc' => ?_
  refine stbind_lift_congr hc' fun i v c' hc' => ?_
  refine stbind_lift_congr hc' fun i v c' hc' => ?_
  refine stbind_isoid_congr hc' fun i v c' hc' => ?_
  refine stbind_lift_congr hc' fun i v c' hc' => ?_
  refine stbind_lift_congr hc' fun i v c' hc' => ?_
  refine stbind_lift_congr hc' fun i v c' hc' => ?_
  refine stbind_lift_congr hc' fun i v c' hc' => ?_
  refine stbind_lift_congr hc' fun i v c' hc' => ?_
  refine stbind_lift_congr hc' fun i v c' hc' => ?_
  refine stbind_lift_congr hc' fun i v c' hc' => ?_
  refine stbind_lift_congr hc' fun i v c' hc' => ?_
  refine stbind_lift_congr hc' fun i v c' hc' => ?_
  refine stbind_lift_congr hc' fun i v c' hc' => ?_
  exact ⟨rfl, hc'⟩

theorem uniprotkbSt_eq (c : CellState) (input : List Nat) (hc : validCell c) :
    (uniprotkbSt c input).2 = uniprotkb input ∧ validCell (uniprotkbSt c input).1 := by
  obtain ⟨h2, h1⟩ := parse_uniprotkbSt_eq input c hc
  unfold uniprotkbSt
  unfold uniprotkb
  rw [← h2]
  cases hp : parse_uniprotkbSt input c with
  | mk c' r =>
    rw [hp] at h1
    cases r <;> exact ⟨rfl, h1⟩

theorem uniprotkb_isoSt_eq (c : CellState) (input : List Nat) (hc : validCell c) :
    (uniprotkb_isoSt c input).2 = uniprotkb_iso input
    ∧ validCell (uniprotkb_isoSt c input).1 := by
  obtain ⟨h2, h1⟩ := parse_uniprotkb_isoSt_eq input c hc
  unfold uniprotkb_isoSt
  unfold uniprotkb_iso
  rw [← h2]
  cases hp : parse_uniprotkb_isoSt input c with
  | mk c' r =>
    rw [hp] at h1
    cases r <;> exact ⟨rfl, h1⟩

/-- C9: both entry points are pure and deterministic — run with the
accession-pattern cell in any reachable state (empty, or already holding the
one-time-compiled matcher), each returns exactly the pure function of the
input bytes, the cell after the run is still a reachable state, and running
the same entry point again on the same bytes returns the same result. -/
theorem uniprotkb_pure_deterministic :
    ∀ (c : CellState) (input : List Nat), validCell c →
      (uniprotkbSt c input).2 = uniprotkb input
      ∧ (uniprotkb_isoSt c input).2 = uniprotkb_iso input
      ∧ validCell (uniprotkbSt c input).1
      ∧ (uniprotkbSt ((uniprotkbSt c input).1) input).2 = (uniprotkbSt c input).2
      ∧ (uniprotkb_isoSt ((uniprotkb_isoSt c input).1) input).2
          = (uniprotkb_isoSt c input).2 := by
  intro c input hc
  obtain ⟨h1, h2⟩ := uniprotkbSt_eq c input hc
  obtain ⟨h3, h4⟩ := uniprotkb_isoSt_eq c input hc
  refine ⟨h1, h3, h2, ?_, ?_⟩
  · rw [(uniprotkbSt_eq _ input h2).1, h1]
  · rw [(uniprotkb_isoSt_eq _ input h4).1, h3]

/-- C9 witness: the theorem applied with the cell still empty and the input
`>x`; two runs agree with the pure entry points. -/
theorem uniprotkb_pure_deterministic_witness :
    (uniprotkbSt none (bytes ">x")).2 = uniprotkb (bytes ">x")
    ∧ (uniprotkb_isoSt none (bytes ">x")).2 = uniprotkb_iso (bytes ">x") := by
  exact ⟨(uniprotkb_pure_deterministic none (bytes ">x") (Or.inl rfl)).1,
    (uniprotkb_pure_deterministic none (bytes ">x") (Or.inl rfl)).2.1⟩

/-! C5 — the accession search: bridging the engine scan `findAcc` with the
declarative window predicate `accSpecMatch`. -/

theorem shape1_length {w : List Nat} (h : accSpecShape1 w = true) : w.length = 6 := by
  unfold accSpecShape1 at h
  split at h
  · rfl
  · simp at h

theorem shape2_length {w : List Nat} (h : accSpecShape2 w = true) :
    w.length = 6 ∨ w.length = 10 := by
  unfold accSpecShape2 at h
  split at h
  · exact Or.inl rfl
  · exact Or.inr rfl
  · simp at h

theorem accSpec_bounds {input : List Nat} {s n : Nat}
    (h : accSpecMatch input s n = true) :
    s + n ≤ input.length ∧ (n = 6 ∨ n = 10) := by
  unfold accSpecMatch at h
  rw [Bool.and_eq_true] at h
  have hsn := of_decide_eq_true h.1
  refine ⟨hsn, ?_⟩
  have hlen : ((input.drop s).take n).length = n := by
    rw [List.length_take, List.length_drop]
    omega
  have h2 := h.2
  rw [Bool.or_eq_true] at h2
  rcases h2 with h1 | h1
  · have := shape1_length h1
    omega
  · have := shape2_length h1
    omega

theorem grpAt_destruct {r : List Nat} (h : grpAt r = true) :
    ∃ a b c d r2, r = a :: b :: c :: d :: r2 ∧ grp4 a b c d = true := by
  unfold grpAt at h
  split at h
  · rename_i a b c d r2
    exact ⟨a, b, c, d, r2, rfl, h⟩
  · simp at h

theorem acc1Len_some {l : List Nat} {n : Nat} (h : acc1Len l = some n) :
    n = 6 ∧ 6 ≤ l.length ∧ accSpecShape1 (l.take 6) = true := by
  unfold acc1Len at h
  split at h
  · rename_i c0 c1 c2 c3 c4 c5 rest
    by_cases hc : (classOPQ c0 && is_digit c1 && classUpperDigit c2 && classUpperDigit c3
        && classUpperDigit c4 && is_digit c5) = true
    · rw [if_pos hc] at h
      injection h with h
      refine ⟨h.symm, by simp, ?_⟩
      simpa [accSpecShape1] using hc
    · rw [if_neg hc] at h
      exact absurd h (by simp)
  · exact absurd h (by simp)

theorem acc2Len_some {l : List Nat} {n : Nat} (h : acc2Len l = some n) :
    (n = 6 ∨ n = 10) ∧ n ≤ l.length ∧ accSpecShape2 (l.take n) = true := by
  unfold acc2Len at h
  split at h
  · rename_i c0 c1 rest
    by_cases hg : (classANRZ c0 && is_digit c1) = true
    · rw [if_pos hg] at h
      rw [Bool.and_eq_true] at hg
      by_cases h2 : (grpAt rest && grpAt (rest.drop 4)) = true
      · rw [if_pos h2] at h
        injection h with h
        subst h
        rw [Bool.and_eq_true] at h2
        obtain ⟨hg1, hg2⟩ := h2
        obtain ⟨a, b, cc, d, r2, rfl, hgg⟩ := grpAt_destruct hg1
        have hdrop : ((a :: b :: cc :: d :: r2).drop 4) = r2 := rfl
        rw [hdrop] at hg2
        obtain ⟨a2, b2, cc2, d2, r3, rfl, hgg2⟩ := grpAt_destruct hg2
        refine ⟨Or.inr rfl, by simp, ?_⟩
        simp [accSpecShape2, hg.1, hg.2, hgg, hgg2, grp4] at *
        simp [hgg, hgg2]
      · rw [if_neg h2] at h
        by_cases h3 : grpAt rest = true
        · rw [if_pos h3] at h
          injection h with h
          subst h
          obtain ⟨a, b, cc, d, r2, rfl, hgg⟩ := grpAt_destruct h3
          refine ⟨Or.inl rfl, by simp, ?_⟩
          simp [accSpecShape2, hg.1, hg.2, hgg]
        · rw [if_neg h3] at h
          exact absurd h (by simp)
    · rw [if_neg hg] at h
      exact absurd h (by simp)
  · exact absurd h (by simp)

theorem accMatchAt_spec {l : List Nat} {n : Nat} (h : accMatchAt l = some n) :
    n ≤ l.length
    ∧ (accSpecShape1 (l.take n) || accSpecShape2 (l.take n)) = true := by
  unfold accMatchAt at h
  cases h1 : acc1Len l with
  | some m =>
    rw [h1] at h
    injection h with h
    subst h
    obtain ⟨h6, hlen, hsh⟩ := acc1Len_some h1
    subst h6
    exact ⟨hlen, by rw [hsh, Bool.true_or]⟩
  | none =>
    rw [h1] at h
    obtain ⟨h610, hlen, hsh⟩ := acc2Len_some h
    exact ⟨hlen, by rw [hsh, Bool.or_true]⟩

theorem shape1_acc1 {l : List Nat} (h : accSpecShape1 (l.take 6) = true) :
    acc1Len l = some 6 := by
  rcases l with _ | ⟨c0, _ | ⟨c1, _ | ⟨c2, _ | ⟨c3, _ | ⟨c4, _ | ⟨c5, rest⟩⟩⟩⟩⟩⟩
  · have := shape1_length h
    simp at this
  · have := shape1_length h
    simp at this
  · have := shape1_length h
    simp at this
  · have := shape1_length h
    simp at this
  · have := shape1_length h
    simp at this
  · have := shape1_length h
    simp at this
  · have hc : (classOPQ c0 && is_digit c1 && classUpperDigit c2 && classUpperDigit c3
        && classUpperDigit c4 && is_digit c5) = true := by
      simpa [accSpecShape1] using h
    simp [acc1Len, hc]

theorem shape2_acc2 {l : List Nat} {n : Nat} (h : accSpecShape2 (l.take n) = true)
    (hn : n ≤ l.length) : ∃ m, acc2Len l = some m := by
  have hlen := shape2_length h
  rw [List.length_take, Nat.min_eq_left hn] at hlen
  rcases hlen with rfl | rfl
  · rcases l with _ | ⟨c0, _ | ⟨c1, _ | ⟨c2, _ | ⟨c3, _ | ⟨c4, _ | ⟨c5, rest⟩⟩⟩⟩⟩⟩
    · simp at hn
    · simp at hn
    · simp at hn
    · simp at hn
    · simp at hn
    · simp at hn
    · have hc : (classANRZ c0 && is_digit c1 && grp4 c2 c3 c4 c5) = true := by
        simpa [accSpecShape2] using h
      rw [Bool.and_eq_true, Bool.and_eq_true] at hc
      have e1 : grpAt (c2 :: c3 :: c4 :: c5 :: rest) = grp4 c2 c3 c4 c5 := rfl
      have e2 : (c2 :: c3 :: c4 :: c5 :: rest).drop 4 = rest := rfl
      by_cases hg : grpAt rest = true
      · exact ⟨10, by simp [acc2Len, hc.1.1, hc.1.2, e1, e2, hc.2, hg]⟩
      · exact ⟨6, by simp [acc2Len, hc.1.1, hc.1.2, e1, e2, hc.2, hg]⟩
  · rcases l with _ | ⟨c0, _ | ⟨c1, _ | ⟨c2, _ | ⟨c3, _ | ⟨c4, _ | ⟨c5, _ | ⟨c6,
      _ | ⟨c7, _ | ⟨c8, _ | ⟨c9, rest⟩⟩⟩⟩⟩⟩⟩⟩⟩⟩
    · simp at hn
    · simp at hn
    · simp at hn
    · simp at hn
    · simp at hn
    · simp at hn
    · simp at hn
    · simp at hn
    · simp at hn
    · simp at hn
    · have hc : (classANRZ c0 && is_digit c1 && grp4 c2 c3 c4 c5 && grp4 c6 c7 c8 c9)
          = true := by
        simpa [accSpecShape2] using h
      rw [Bool.and_eq_true, Bool.and_eq_true, Bool.and_eq_true] at hc
      exact ⟨10, by simp [acc2Len, hc.1.1.1, hc.1.1.2, grpAt, hc.1.2, hc.2]⟩

theorem spec_accMatchAt {l : List Nat} {n : Nat}
    (h : (accSpecShape1 (l.take n) || accSpecShape2 (l.take n)) = true)
    (hn : n ≤ l.length) : accMatchAt l ≠ none := by
  rw [Bool.or_eq_true] at h
  rcases h with h | h
  · have h6 : n = 6 := by
      have := shape1_length h
      rw [List.length_take, Nat.min_eq_left hn] at this
      exact this
    subst h6
    unfold accMatchAt
    rw [shape1_acc1 h]
    simp
  · obtain ⟨m, hm⟩ := shape2_acc2 h hn
    unfold accMatchAt
    cases h1 : acc1Len l with
    | some k => simp
    | none =>
      rw [hm]
      simp

theorem findAcc_spec (input : List Nat) :
    (∀ s n, findAcc input = some (s, n) →
      accMatchAt (input.drop s) = some n
      ∧ ∀ s', s' < s → accMatchAt (input.drop s') = none)
    ∧ (findAcc input = none → ∀ s, accMatchAt (input.drop s) = none) := by
  induction input with
  | nil =>
    constructor
    · intro s n h
      simp [findAcc] at h
    · intro _ s
      rw [List.drop_nil]
      rfl
  | cons c t ih =>
    constructor
    · intro s n h
      unfold findAcc at h
      cases hm : accMatchAt (c :: t) with
      | some m =>
        rw [hm] at h
        injection h with h
        injection h with hs hn
        subst hs
        subst hn
        exact ⟨hm, fun s' hs' => absurd hs' (Nat.not_lt_zero s')⟩
      | none =>
        rw [hm] at h
        cases hf : findAcc t with
        | none =>
          rw [hf] at h
          simp at h
        | some p =>
          obtain ⟨s0, n0⟩ := p
          rw [hf] at h
          simp only [Option.map_some] at h
          injection h with h
          injection h with hs hn
          obtain ⟨hat, hmin⟩ := (ih.1 s0 n0 hf)
          subst hs
          subst hn
          constructor
          · rw [List.drop_succ_cons]
            exact hat
          · intro s' hs'
            cases s' with
            | zero => simpa using hm
            | succ s2 =>
              rw [List.drop_succ_cons]
              exact hmin s2 (by omega)
    · intro h s
      unfold findAcc at h
      cases hm : accMatchAt (c :: t) with
      | some m =>
        rw [hm] at h
        simp at h
      | none =>
        rw [hm] at h
        have hf : findAcc t = none := by
          cases hf : findAcc t with
          | none => rfl
          | some p =>
            rw [hf] at h
            simp at h
        cases s with
        | zero => simpa using hm
        | succ s' =>
          rw [List.drop_succ_cons]
          exact ih.2 hf s'

/-- C5: whenever the accession pattern has a unique leftmost window match in
the buffer — at offset `s`, of length `n`, with no match starting earlier and
no other match length at `s` — the identifier sub-parser returns exactly that
window (even when `s` is not 0) and advances the cursor just past it; and on
a buffer with no window match anywhere it fails with the distinct
no-accession-pattern kind on the untouched input. -/
theorem unique_id_accession_spec :
    (∀ (input : List Nat) (s n : Nat),
      accSpecMatch input s n = true →
      (∀ s' n', accSpecMatch input s' n' = true → s ≤ s') →
      (∀ n', accSpecMatch input s n' = true → n' = n) →
      unique_id input = .ok (input.drop (s + n)) ((input.drop s).take n))
    ∧ (∀ input : List Nat, (∀ s n, accSpecMatch input s n = false) →
      unique_id input = .err input .RegexpCapture) := by
  constructor
  · intro input s n hm hleft huniq
    have hm' := hm
    unfold accSpecMatch at hm'
    rw [Bool.and_eq_true] at hm'
    have hsn := of_decide_eq_true hm'.1
    have hmatch : accMatchAt (input.drop s) ≠ none := by
      refine spec_accMatchAt hm'.2 ?_
      rw [List.length_drop]
      omega
    cases hf : findAcc input with
    | none => exact absurd ((findAcc_spec input).2 hf s) hmatch
    | some p =>
      obtain ⟨s0, n0⟩ := p
      obtain ⟨hat, hmin⟩ := (findAcc_spec input).1 s0 n0 hf
      obtain ⟨hlen2, hsh2⟩ := accMatchAt_spec hat
      have hs0lt : s0 ≤ input.length := by
        by_contra hgt
        rw [List.drop_eq_nil_of_le (by omega)] at hat
        exact absurd hat (by simp [accMatchAt, acc1Len, acc2Len])
      have hspec2 : accSpecMatch input s0 n0 = true := by
        unfold accSpecMatch
        rw [Bool.and_eq_true]
        refine ⟨decide_eq_true ?_, hsh2⟩
        rw [List.length_drop] at hlen2
        omega
      have h1 : s ≤ s0 := hleft s0 n0 hspec2
      have h2 : s0 ≤ s := by
        by_contra hlt
        exact hmatch (hmin s (by omega))
      have hs : s0 = s := le_antisymm h2 h1
      subst hs
      have hn : n0 = n := huniq n0 hspec2
      subst hn
      unfold unique_id
      rw [hf]
  · intro input hno
    cases hf : findAcc input with
    | some p =>
      obtain ⟨s0, n0⟩ := p
      obtain ⟨hat, _⟩ := (findAcc_spec input).1 s0 n0 hf
      obtain ⟨hlen2, hsh2⟩ := accMatchAt_spec hat
      have hs0lt : s0 ≤ input.length := by
        by_contra hgt
        rw [List.drop_eq_nil_of_le (by omega)] at hat
        exact absurd hat (by simp [accMatchAt, acc1Len, acc2Len])
      have hspec2 : accSpecMatch input s0 n0 = true := by
        unfold accSpecMatch
        rw [Bool.and_eq_true]
        refine ⟨decide_eq_true ?_, hsh2⟩
        rw [List.length_drop] at hlen2
        omega
      rw [hno s0 n0] at hspec2
      exact absurd hspec2 (by simp)
    | none =>
      unfold unique_id
      rw [hf]

/-- C5 witness: the success part at `xxP12345`, whose unique leftmost window
match starts at offset 2 (not 0) with length 6, and the failure part at `xx`,
which has no window match at all. -/
theorem unique_id_accession_spec_witness :
    unique_id (bytes "xxP12345")
      = .ok ((bytes "xxP12345").drop (2 + 6)) (((bytes "xxP12345").drop 2).take 6)
    ∧ unique_id (bytes "xx") = .err (bytes "xx") .RegexpCapture := by
  constructor
  · refine unique_id_accession_spec.1 (bytes "xxP12345") 2 6 (by decide) ?_ ?_
    · intro s' n' hm
      obtain ⟨hsn, hn⟩ := accSpec_bounds hm
      have hlen : (bytes "xxP12345").length = 8 := rfl
      rcases hn with rfl | rfl
      · have hs2 : s' = 0 ∨ s' = 1 ∨ s' = 2 := by omega
        rcases hs2 with rfl | rfl | rfl
        · exact absurd hm (by decide)
        · exact absurd hm (by decide)
        · exact Nat.le_refl 2
      · omega
    · intro n' hm
      obtain ⟨hsn, hn⟩ := accSpec_bounds hm
      have hlen : (bytes "xxP12345").length = 8 := rfl
      rcases hn with rfl | rfl
      · rfl
      · omega
  · refine unique_id_accession_spec.2 (bytes "xx") ?_
    intro s n
    cases h : accSpecMatch (bytes "xx") s n with
    | false => rfl
    | true =>
      exfalso
      obtain ⟨hsn, hn⟩ := accSpec_bounds h
      have hlen : (bytes "xx").length = 2 := rfl
      rcases hn with rfl | rfl <;> omega

end Uniprot
